import Mathlib

/-!
Verification of the manual-workflow-trigger service (`src/main.py`).

The embedding models:
* Firestore documents as association lists of field values (`Doc`);
* the transactional function `update_docs_and_prepare_messages`
  (`main.py:133-160`) as a pure function from the streamed documents to
  the dispatch messages and the per-document update payloads;
* commit of a transaction as applying the accumulated update payloads to
  the store, resolving the `SERVER_TIMESTAMP` sentinel to the server time;
* the `service_auth_required` decorator (`main.py:106-127`), with the
  external token-verification library modelled from the spec;
* the orchestration loop of `start_workflow` (`main.py:168-228`) as a
  fuel-indexed recursion that threads the store, consults an environment
  for the query responses and publish acknowledgments, and records a
  trace of claim / commit / publish / ack events.
-/

namespace WorkflowTrigger

/-- A Firestore field value: strings, resolved timestamps, and the
`SERVER_TIMESTAMP` sentinel written by the transaction and resolved by the
server at commit time. -/
inductive FieldValue where
  | str (s : String)
  | time (t : Nat)
  | serverTimestamp
deriving DecidableEq

/-- A document of the collection: its document id and its field map. -/
structure Doc where
  id : String
  fields : List (String × FieldValue)
deriving DecidableEq

/-- The document store (the queried collection), in store order. -/
abbrev Store := List Doc

/-- Field lookup in a document's field map (`doc.to_dict().get(k)`). -/
def getField (k : String) : List (String × FieldValue) → Option FieldValue
  | [] => none
  | (k', v) :: rest => if k' = k then some v else getField k rest

/-- The re-check of `main.py:147`: `doc.to_dict().get("status") == "received"`. -/
def isReceived (d : Doc) : Bool :=
  match getField "status" d.fields with
  | some (FieldValue.str s) => s == "received"
  | _ => false

/-- A Pub/Sub dispatch message payload (`main.py:149`). -/
structure Msg where
  documentId : String
  batchId : String
deriving DecidableEq

/-- The update dictionary written by the transaction (`main.py:152-159`). -/
def claimPayload (bid : String) : List (String × FieldValue) :=
  [("status", FieldValue.str "queued"),
   ("queuedAt", FieldValue.serverTimestamp),
   ("batchId", FieldValue.str bid)]

/-- An update accumulated in the transaction: target document id and the
field dictionary to merge. -/
abbrev Update := String × List (String × FieldValue)

/-- `update_docs_and_prepare_messages` (`main.py:133-160`): walk the
streamed documents; each one that still has `status == "received"`
contributes one dispatch message and one update; the others contribute
nothing. Returns the messages and the transaction's accumulated updates. -/
def update_docs_and_prepare_messages (docs : List Doc) (batchId : String) :
    List Msg × List Update :=
  match docs with
  | [] => ([], [])
  | d :: rest =>
    let r := update_docs_and_prepare_messages rest batchId
    if isReceived d then
      (⟨d.id, batchId⟩ :: r.1, (d.id, claimPayload batchId) :: r.2)
    else r

/-- Resolution of the `SERVER_TIMESTAMP` sentinel at commit time. -/
def resolveValue (now : Nat) : FieldValue → FieldValue
  | FieldValue.serverTimestamp => FieldValue.time now
  | v => v

/-- Set one field of a field map, overwriting an existing binding. -/
def setField (k : String) (v : FieldValue) :
    List (String × FieldValue) → List (String × FieldValue)
  | [] => [(k, v)]
  | (k', v') :: rest =>
    if k' = k then (k, v) :: rest else (k', v') :: setField k v rest

/-- Merge an update dictionary into a document (Firestore `update`),
resolving sentinels with the server time `now`. -/
def applyFields (now : Nat) (upd : List (String × FieldValue)) (d : Doc) : Doc :=
  { d with
    fields := upd.foldl (fun fs kv => setField kv.1 (resolveValue now kv.2) fs) d.fields }

/-- The effect of the transaction's accumulated updates on one document:
apply, in order, every update targeting its id. -/
def commitDoc (upds : List Update) (now : Nat) (d : Doc) : Doc :=
  upds.foldl (fun d' u => if u.1 = d'.id then applyFields now u.2 d' else d') d

/-- Commit of the transaction: apply every accumulated update to the
document it targets; documents not targeted are untouched. -/
def commitUpdates (s : Store) (upds : List Update) (now : Nat) : Store :=
  s.map (commitDoc upds now)

/-! ### Authentication (`service_auth_required`, `main.py:106-127`) -/

/-- Modelled from the spec: the external token verification performed by
`id_token.verify_oauth2_token` (the Google auth library, not part of this
repository). A token carries a signature-validity verdict and an audience
claim; verification succeeds exactly when the signature is valid and the
audience equals the expected audience, and raises `ValueError` otherwise. -/
structure AuthEnv where
  sigValid : String → Bool
  audOf : String → String

/-- Verification outcome of `verify_oauth2_token` with the configured
audience (`main.py:117-121`): `true` = verified, `false` = `ValueError`. -/
def verifyToken (aenv : AuthEnv) (expected : String) (token : String) : Bool :=
  aenv.sigValid token && (aenv.audOf token == expected)

/-- Outcome of the decorator: proceed to the wrapped handler, or reject
with an HTTP status code and message body. -/
inductive AuthOutcome where
  | proceed (token : String)
  | reject (code : Nat) (message : String)
deriving DecidableEq

/-- Python's `str.split(sep)` over character lists (for a non-empty
separator): split at every occurrence of `sep`. The `skip` counter walks
over the remaining characters of a matched separator. -/
def splitGo (sep : List Char) : List Char → Nat → List (List Char)
  | [], _ => [[]]
  | _ :: rest, Nat.succ k => splitGo sep rest k
  | c :: rest, 0 =>
    if sep.isPrefixOf (c :: rest) then
      [] :: splitGo sep rest (sep.length - 1)
    else
      match splitGo sep rest 0 with
      | [] => [[c]]
      | h :: t => (c :: h) :: t

/-- The condition of `main.py:111`:
`not auth_header or not auth_header.startswith("Bearer ")` — the header
is absent, empty, or does not start with the characters `"Bearer "`. -/
def headerMissingOrMalformed : Option String → Bool
  | none => true
  | some h => h.data.isEmpty || !("Bearer ".data.isPrefixOf h.data)

/-- Token extraction of `main.py:114`: `auth_header.split("Bearer ")[1]`. -/
def tokenOf (h : String) : String :=
  String.mk ((splitGo "Bearer ".data h.data 0).getD 1 [])

/-- The `service_auth_required` decorator (`main.py:106-127`). -/
def service_auth_required (aenv : AuthEnv) (expected : String)
    (header : Option String) : AuthOutcome :=
  if headerMissingOrMalformed header then
    AuthOutcome.reject 401 "認証ヘッダーがありません"
  else
    let token := tokenOf (header.getD "")
    if verifyToken aenv expected token then AuthOutcome.proceed token
    else AuthOutcome.reject 403 "無効な認証トークンです"

/-- The HTTP status code of an auth outcome, `none` when the request
proceeds to the handler. -/
def authCode : AuthOutcome → Option Nat
  | AuthOutcome.proceed _ => none
  | AuthOutcome.reject c _ => some c

/-! ### The orchestration loop (`start_workflow`, `main.py:168-228`) -/

/-- The index of the first publish whose `future.result()` raises
(`main.py:207-208`): acknowledgments are awaited in submission order, so
the first non-acknowledged message aborts the batch; `none` when every
publish is acknowledged. -/
def firstFailIdx (ok : String → Bool) : List String → Option Nat
  | [] => none
  | d :: rest => if ok d then (firstFailIdx ok rest).map (· + 1) else some 0

/-- An event of one orchestration run, for the temporal claims:
issuing the claim query/transaction of iteration `i` with query limit
`limit`; committing its updates (listing the claimed document ids);
submitting a publish; receiving a publish acknowledgment. -/
inductive Event where
  | claim (iter limit : Nat)
  | commit (iter : Nat) (ids : List String)
  | publish (iter : Nat) (docId : String)
  | ack (iter : Nat) (docId : String)
deriving DecidableEq

/-- Outcome of the loop: the `200` success path with its
`total_processed`, the exception path caught at `main.py:223` (`500`),
or fuel exhaustion of the embedding (proved unreachable below). Each
carries the number of claim iterations performed. -/
inductive RunOutcome where
  | success (total iters : Nat)
  | failure (total iters : Nat)
  | fuelOut (total iters : Nat)
deriving DecidableEq

/-- The claim-iteration count of an outcome. -/
def RunOutcome.iters : RunOutcome → Nat
  | RunOutcome.success _ i => i
  | RunOutcome.failure _ i => i
  | RunOutcome.fuelOut _ i => i

/-- Whether the embedding ran out of fuel. -/
def RunOutcome.isFuelOut : RunOutcome → Bool
  | RunOutcome.fuelOut _ _ => true
  | _ => false

/-- The environment of a run: the behaviour of the external collaborators.
`resp i s` is the store's response to the claim query of iteration `i`
when the store holds `s` (`none` models a raised store error); the
response is truncated to the query's `limit` by the store (spec §4.2:
"Query up to `limit` WorkItems"). `pubOk i d` is whether the publish of
document `d` in iteration `i` is acknowledged (`false` models
`future.result()` raising). `time i` is the server time assigned at the
commit of iteration `i`. -/
structure Env where
  resp : Nat → Store → Option (List Doc)
  pubOk : Nat → String → Bool
  time : Nat → Nat

/-- One run of the `while total_processed < MAX_DOCUMENTS_PER_REQUEST`
loop (`main.py:183-212`), from iteration `i` with accumulated total
`total` and store `s`. Each iteration issues the claim query with limit
`B`, runs the transaction, commits, and on a non-empty claim publishes
every message and awaits every acknowledgment in order; the first failed
acknowledgment raises, reaching the handler of `main.py:223`. Fuel bounds
the recursion; `fuelOut` is unreachable when `fuel + total ≥ M`. Returns
the event trace, the outcome, and the final store. -/
def loopAux (env : Env) (B M : Nat) (bid : String) :
    Nat → Nat → Nat → Store → List Event × RunOutcome × Store
  | fuel, i, total, s =>
    if M ≤ total then ([], RunOutcome.success total i, s)
    else
      match fuel with
      | 0 => ([], RunOutcome.fuelOut total i, s)
      | Nat.succ fuel' =>
        match env.resp i s with
        | none => ([Event.claim i B], RunOutcome.failure total (i + 1), s)
        | some docs =>
          let streamed := docs.take B
          let mu := update_docs_and_prepare_messages streamed bid
          let s' := commitUpdates s mu.2 (env.time i)
          let ids := mu.1.map (fun m => m.documentId)
          if mu.1.isEmpty then
            ([Event.claim i B, Event.commit i ids],
             RunOutcome.success total (i + 1), s')
          else
            match firstFailIdx (env.pubOk i) ids with
            | some k =>
              ([Event.claim i B, Event.commit i ids]
                 ++ ids.map (Event.publish i) ++ (ids.take k).map (Event.ack i),
               RunOutcome.failure total (i + 1), s')
            | none =>
              let rest := loopAux env B M bid fuel' (i + 1) (total + mu.1.length) s'
              ([Event.claim i B, Event.commit i ids]
                 ++ ids.map (Event.publish i) ++ ids.map (Event.ack i) ++ rest.1,
               rest.2.1, rest.2.2)

/-- The HTTP response shape of `start_workflow`: status code, body
`status`, body `message`, and the optional body fields `processedCount`
and `batchId` (present only on the `200` success body, `main.py:216-221`;
the `500` body of `main.py:228` carries neither). -/
structure HttpResponse where
  code : Nat
  status : String
  message : String
  processedCount : Option Nat
  batchId : Option String
deriving DecidableEq

/-- The response built from an outcome: the `200` success body of
`main.py:216-221`, or the generic `500` error body of `main.py:228`
(also used for the unreachable `fuelOut`). -/
def responseOf (o : RunOutcome) (bid : String) : HttpResponse :=
  match o with
  | RunOutcome.success t _ =>
    { code := 200, status := "success",
      message := "ワークフローを開始し、合計" ++ toString t ++ "件の記事をキューに追加しました。",
      processedCount := some t, batchId := some bid }
  | RunOutcome.failure _ _ =>
    { code := 500, status := "error", message := "内部サーバーエラーが発生しました。",
      processedCount := none, batchId := none }
  | RunOutcome.fuelOut _ _ =>
    { code := 500, status := "error", message := "内部サーバーエラーが発生しました。",
      processedCount := none, batchId := none }

/-- `start_workflow` after authentication: run the loop with fuel `M`
from an empty total and build the response. Returns the trace, outcome,
final store, and HTTP response. -/
def start_workflow (env : Env) (B M : Nat) (bid : String) (s : Store) :
    List Event × RunOutcome × Store × HttpResponse :=
  let r := loopAux env B M bid M 0 0 s
  (r.1, r.2.1, r.2.2, responseOf r.2.1 bid)

/-- The faithful store behaviour: the claim query of `main.py:184-188`
returns the documents with `status == "received"`, and every publish is
acknowledged. Used for the concrete-store scenarios. -/
def honestEnv : Env :=
  { resp := fun _ s => some (s.filter (fun d => isReceived d)),
    pubOk := fun _ _ => true,
    time := fun i => i }

/-- A store of four eligible documents. -/
def overshootStore : Store :=
  [⟨"d1", [("status", FieldValue.str "received")]⟩,
   ⟨"d2", [("status", FieldValue.str "received")]⟩,
   ⟨"d3", [("status", FieldValue.str "received")]⟩,
   ⟨"d4", [("status", FieldValue.str "received")]⟩]

/-- A store of two eligible documents. -/
def twoDocStore : Store :=
  [⟨"d1", [("status", FieldValue.str "received")]⟩,
   ⟨"d2", [("status", FieldValue.str "received")]⟩]

/-- A store of one eligible document. -/
def oneDocStore : Store := [⟨"d1", [("status", FieldValue.str "received")]⟩]

/-- A store behaviour that answers every claim query with one eligible
document, regardless of the store contents (e.g. an item becoming
eligible between batches). -/
def oneEachEnv : Env :=
  { resp := fun _ _ => some [⟨"d", [("status", FieldValue.str "received")]⟩],
    pubOk := fun _ _ => true, time := fun i => i }

/-- The honest store behaviour except that the publish of document
`"d2"` is never acknowledged (its `future.result()` raises). -/
def pubFailEnv : Env :=
  { resp := fun _ s => some (s.filter (fun d => isReceived d)),
    pubOk := fun _ d => !(d == "d2"), time := fun i => i }

/-- The honest store behaviour for the first claim, then a raised store
error on every later claim. -/
def storeFailEnv : Env :=
  { resp := fun i s => if i = 0 then some (s.filter (fun d => isReceived d)) else none,
    pubOk := fun _ _ => true, time := fun i => i }

/-- A store behaviour whose every claim raises. -/
def alwaysFailEnv : Env :=
  { resp := fun _ _ => none, pubOk := fun _ _ => true, time := fun i => i }

/-- Recognizer of publish events, for counting dispatches in a trace. -/
def isPublishEvent : Event → Bool
  | Event.publish _ _ => true
  | _ => false

/-- The committed-batches map for the publish-after-commit invariant:
after a commit event of iteration `j` with claimed ids `ids`, the map
records `ids` at `j`. -/
def updateCommitted (committed : Nat → List String) (j : Nat) (ids : List String) :
    Nat → List String :=
  fun j' => if j' = j then ids else committed j'

/-- Left-to-right trace invariant: every publish event of iteration `j`
carries a document id already committed by the claim transaction of
iteration `j` (dispatch only after the transaction that queued the item
committed). -/
def PubCommitInv (committed : Nat → List String) : List Event → Prop
  | [] => True
  | Event.claim _ _ :: tr => PubCommitInv committed tr
  | Event.commit j ids :: tr => PubCommitInv (updateCommitted committed j ids) tr
  | Event.publish j d :: tr => d ∈ committed j ∧ PubCommitInv committed tr
  | Event.ack _ _ :: tr => PubCommitInv committed tr

/-- Left-to-right trace invariant: a claim is issued only while no
publish is awaiting acknowledgment (batch `N+1` starts only after every
publish of batch `N` is acknowledged). -/
def ClaimAfterAcks (pending : List (Nat × String)) : List Event → Prop
  | [] => True
  | Event.claim _ _ :: tr => pending = [] ∧ ClaimAfterAcks pending tr
  | Event.commit _ _ :: tr => ClaimAfterAcks pending tr
  | Event.publish j d :: tr => ClaimAfterAcks (pending ++ [(j, d)]) tr
  | Event.ack j d :: tr => ClaimAfterAcks (pending.erase (j, d)) tr

/-! ## Basic lemmas on field maps and the transaction -/

theorem getField_setField_same (k : String) (v : FieldValue)
    (fs : List (String × FieldValue)) : getField k (setField k v fs) = some v := by
  induction fs with
  | nil => simp [setField, getField]
  | cons kv rest ih =>
    by_cases h : kv.1 = k
    · simp [setField, h, getField]
    · cases kv with
      | mk k' v' =>
        simp only at h
        simp [setField, h, getField, ih]

theorem getField_setField_other (k k' : String) (v : FieldValue)
    (fs : List (String × FieldValue)) (hne : ¬ k' = k) :
    getField k' (setField k v fs) = getField k' fs := by
  have hkk : ¬ k = k' := fun h => hne h.symm
  induction fs with
  | nil => simp [setField, getField, hkk]
  | cons kv rest ih =>
    cases kv with
    | mk a b =>
      by_cases h : a = k
      · subst h
        simp [setField, getField, hkk]
      · simp [setField, h, getField, ih]

theorem applyFields_claimPayload_status (now : Nat) (bid : String) (d : Doc) :
    getField "status" (applyFields now (claimPayload bid) d).fields
      = some (FieldValue.str "queued") := by
  simp only [applyFields, claimPayload, resolveValue, List.foldl]
  rw [getField_setField_other _ _ _ _ (by decide),
      getField_setField_other _ _ _ _ (by decide),
      getField_setField_same]

theorem applyFields_claimPayload_queuedAt (now : Nat) (bid : String) (d : Doc) :
    getField "queuedAt" (applyFields now (claimPayload bid) d).fields
      = some (FieldValue.time now) := by
  simp only [applyFields, claimPayload, resolveValue, List.foldl]
  rw [getField_setField_other _ _ _ _ (by decide), getField_setField_same]

theorem applyFields_claimPayload_batchId (now : Nat) (bid : String) (d : Doc) :
    getField "batchId" (applyFields now (claimPayload bid) d).fields
      = some (FieldValue.str bid) := by
  simp only [applyFields, claimPayload, resolveValue, List.foldl]
  rw [getField_setField_same]

theorem applyFields_id (now : Nat) (upd : List (String × FieldValue)) (d : Doc) :
    (applyFields now upd d).id = d.id := rfl

theorem update_docs_msgs (docs : List Doc) (bid : String) :
    (update_docs_and_prepare_messages docs bid).1
      = (docs.filter (fun d => isReceived d)).map (fun d => ⟨d.id, bid⟩) := by
  induction docs with
  | nil => rfl
  | cons d rest ih =>
    by_cases h : isReceived d
    · simp [update_docs_and_prepare_messages, List.filter_cons, h, ih]
    · simp only [Bool.not_eq_true] at h
      simp [update_docs_and_prepare_messages, List.filter_cons, h, ih]

theorem update_docs_upds (docs : List Doc) (bid : String) :
    (update_docs_and_prepare_messages docs bid).2
      = (docs.filter (fun d => isReceived d)).map (fun d => (d.id, claimPayload bid)) := by
  induction docs with
  | nil => rfl
  | cons d rest ih =>
    by_cases h : isReceived d
    · simp [update_docs_and_prepare_messages, List.filter_cons, h, ih]
    · simp only [Bool.not_eq_true] at h
      simp [update_docs_and_prepare_messages, List.filter_cons, h, ih]

theorem commitDoc_not_target (upds : List Update) (now : Nat) (d : Doc)
    (h : ¬ d.id ∈ upds.map Prod.fst) : commitDoc upds now d = d := by
  induction upds with
  | nil => rfl
  | cons u rest ih =>
    simp only [List.map_cons, List.mem_cons] at h
    push_neg at h
    simp only [commitDoc, List.foldl]
    rw [if_neg (fun he => h.1 he.symm)]
    exact ih h.2

/-! ## C2, C10, C7 -/

/-- C2: within one claim transaction, every streamed document passing the
in-transaction re-check `status == "received"` contributes exactly one
dispatch message `{documentId, batchId}` and exactly one update setting
`status = "queued"`, `queuedAt` = the server-assigned time, and `batchId`
= the run's batch id, in stream order; documents failing the re-check
contribute no message and no update. -/
theorem C2_claim_transaction (docs : List Doc) (bid : String) (now : Nat) :
    (update_docs_and_prepare_messages docs bid).1
        = (docs.filter (fun d => isReceived d)).map (fun d => ⟨d.id, bid⟩)
  ∧ (update_docs_and_prepare_messages docs bid).2
        = (docs.filter (fun d => isReceived d)).map (fun d => (d.id, claimPayload bid))
  ∧ (∀ d : Doc,
        getField "status" (applyFields now (claimPayload bid) d).fields
            = some (FieldValue.str "queued")
      ∧ getField "queuedAt" (applyFields now (claimPayload bid) d).fields
            = some (FieldValue.time now)
      ∧ getField "batchId" (applyFields now (claimPayload bid) d).fields
            = some (FieldValue.str bid)) :=
  ⟨update_docs_msgs docs bid, update_docs_upds docs bid, fun d =>
    ⟨applyFields_claimPayload_status now bid d,
     applyFields_claimPayload_queuedAt now bid d,
     applyFields_claimPayload_batchId now bid d⟩⟩

/-- C10: the claim transaction writes no document field other than
`status`, `queuedAt` and `batchId` (and preserves the document id); a
store document targeted by no update is left entirely unchanged by the
commit; and a streamed document that fails the re-check (status not
`"received"`) is targeted by no update of the transaction. -/
theorem C10_frame (now : Nat) (bid : String) :
    (∀ (d : Doc) (k : String), ¬ k = "status" → ¬ k = "queuedAt" → ¬ k = "batchId" →
        getField k (applyFields now (claimPayload bid) d).fields = getField k d.fields
      ∧ (applyFields now (claimPayload bid) d).id = d.id)
  ∧ (∀ (upds : List Update) (d : Doc), ¬ d.id ∈ upds.map Prod.fst →
        commitDoc upds now d = d)
  ∧ (∀ (docs : List Doc) (d : Doc), d ∈ docs → isReceived d = false →
        (docs.map Doc.id).Nodup →
        ¬ d.id ∈ ((update_docs_and_prepare_messages docs bid).2).map Prod.fst) := by
  refine ⟨?_, ?_, ?_⟩
  · intro d k h1 h2 h3
    constructor
    · simp only [applyFields, claimPayload, resolveValue, List.foldl]
      rw [getField_setField_other _ _ _ _ h3, getField_setField_other _ _ _ _ h2,
          getField_setField_other _ _ _ _ h1]
    · rfl
  · intro upds d h
    exact commitDoc_not_target upds now d h
  · intro docs d hmem hrec hnodup
    rw [update_docs_upds]
    simp only [List.map_map, List.mem_map, Function.comp]
    rintro ⟨d', hd', hid⟩
    have hd'mem : d' ∈ docs := List.mem_of_mem_filter hd'
    have : d' = d := by
      have hinj := List.inj_on_of_nodup_map (by simpa using hnodup)
      exact hinj hd'mem hmem hid
    subst this
    have := List.of_mem_filter hd'
    simp only [hrec] at this
    cases this

/-- C7: the auth decorator rejects with 401 exactly when the
Authorization header is missing or malformed (empty or not starting with
`"Bearer "`), rejects with 403 exactly when the header is well-formed but
the token fails verification, and in particular rejects with 403 a token
whose signature is valid but whose audience claim differs from the
configured expected audience. -/
theorem C7_auth_codes (aenv : AuthEnv) (expected : String) (header : Option String) :
    ((authCode (service_auth_required aenv expected header) = some 401)
        ↔ headerMissingOrMalformed header = true)
  ∧ ((authCode (service_auth_required aenv expected header) = some 403)
        ↔ headerMissingOrMalformed header = false
          ∧ verifyToken aenv expected (tokenOf (header.getD "")) = false)
  ∧ (∀ h : String, header = some h → headerMissingOrMalformed (some h) = false →
        aenv.sigValid (tokenOf h) = true → ¬ aenv.audOf (tokenOf h) = expected →
        authCode (service_auth_required aenv expected header) = some 403) := by
  refine ⟨?_, ?_, ?_⟩
  · by_cases hm : headerMissingOrMalformed header = true
    · simp [service_auth_required, hm, authCode]
    · simp only [Bool.not_eq_true] at hm
      simp only [service_auth_required, hm, Bool.false_eq_true, if_false]
      by_cases hv : verifyToken aenv expected (tokenOf (Option.getD header "")) = true
      · simp [hv, authCode, hm]
      · simp only [Bool.not_eq_true] at hv
        simp [hv, authCode, hm]
  · by_cases hm : headerMissingOrMalformed header = true
    · simp [service_auth_required, hm, authCode]
    · simp only [Bool.not_eq_true] at hm
      simp only [service_auth_required, hm, Bool.false_eq_true, if_false]
      by_cases hv : verifyToken aenv expected (tokenOf (Option.getD header "")) = true
      · simp [hv, authCode, hm]
      · simp only [Bool.not_eq_true] at hv
        simp [hv, authCode, hm]
  · intro h hh hm hsig haud
    subst hh
    have hv : verifyToken aenv expected (tokenOf h) = false := by
      simp only [verifyToken, hsig, Bool.true_and]
      exact beq_eq_false_iff_ne.mpr haud
    simp [service_auth_required, hm, hv, authCode]

/-- Witness for C10 at a concrete document, update list and stream. -/
theorem C10_frame_witness :
    getField "title"
        (applyFields 5 (claimPayload "b")
          ⟨"d1", [("status", FieldValue.str "received"),
                  ("title", FieldValue.str "t")]⟩).fields
      = getField "title" [("status", FieldValue.str "received"),
                          ("title", FieldValue.str "t")]
  ∧ commitDoc [("other", claimPayload "b")] 5
        ⟨"d1", [("status", FieldValue.str "received")]⟩
      = ⟨"d1", [("status", FieldValue.str "received")]⟩
  ∧ ¬ ("d2" : String) ∈
        ((update_docs_and_prepare_messages
            [⟨"d1", [("status", FieldValue.str "received")]⟩,
             ⟨"d2", [("status", FieldValue.str "queued")]⟩] "b").2).map Prod.fst :=
  ⟨((C10_frame 5 "b").1 ⟨"d1", [("status", FieldValue.str "received"),
      ("title", FieldValue.str "t")]⟩ "title"
      (by decide) (by decide) (by decide)).1,
   (C10_frame 5 "b").2.1 [("other", claimPayload "b")]
      ⟨"d1", [("status", FieldValue.str "received")]⟩ (by decide),
   (C10_frame 5 "b").2.2
      [⟨"d1", [("status", FieldValue.str "received")]⟩,
       ⟨"d2", [("status", FieldValue.str "queued")]⟩]
      ⟨"d2", [("status", FieldValue.str "queued")]⟩
      (by decide) (by decide) (by decide)⟩

/-- Witness for C7: a validly-signed token for a different audience is
rejected with 403 at a concrete header. -/
theorem C7_auth_codes_witness :
    authCode (service_auth_required
        ⟨fun t => t == "tok", fun _ => "other-aud"⟩ "me" (some "Bearer tok"))
      = some 403 :=
  (C7_auth_codes ⟨fun t => t == "tok", fun _ => "other-aud"⟩ "me"
      (some "Bearer tok")).2.2 "Bearer tok" rfl (by decide) (by decide) (by decide)

/-! ## Step lemmas for the orchestration loop -/

theorem loopAux_stop {env : Env} {B M : Nat} {bid : String} {fuel i total : Nat}
    {s : Store} (h : M ≤ total) :
    loopAux env B M bid fuel i total s = ([], RunOutcome.success total i, s) := by
  rw [loopAux.eq_def]
  simp [h]

theorem loopAux_fuelZero {env : Env} {B M : Nat} {bid : String} {i total : Nat}
    {s : Store} (h : ¬ M ≤ total) :
    loopAux env B M bid 0 i total s = ([], RunOutcome.fuelOut total i, s) := by
  rw [loopAux.eq_def]
  simp [h]

theorem loopAux_respNone {env : Env} {B M : Nat} {bid : String} {fuel i total : Nat}
    {s : Store} (h : ¬ M ≤ total) (hr : env.resp i s = none) :
    loopAux env B M bid (fuel + 1) i total s
      = ([Event.claim i B], RunOutcome.failure total (i + 1), s) := by
  rw [loopAux.eq_def]
  simp [h, hr]

theorem loopAux_emptyClaim {env : Env} {B M : Nat} {bid : String} {fuel i total : Nat}
    {s : Store} {docs : List Doc} (h : ¬ M ≤ total) (hr : env.resp i s = some docs)
    (he : (update_docs_and_prepare_messages (docs.take B) bid).1 = []) :
    loopAux env B M bid (fuel + 1) i total s
      = ([Event.claim i B, Event.commit i []], RunOutcome.success total (i + 1),
         commitUpdates s (update_docs_and_prepare_messages (docs.take B) bid).2
           (env.time i)) := by
  rw [loopAux.eq_def]
  simp [h, hr, he]

theorem loopAux_pubFail {env : Env} {B M : Nat} {bid : String} {fuel i total : Nat}
    {s : Store} {docs : List Doc} {m : Msg} {ms : List Msg} {k : Nat}
    (h : ¬ M ≤ total) (hr : env.resp i s = some docs)
    (hm : (update_docs_and_prepare_messages (docs.take B) bid).1 = m :: ms)
    (hk : firstFailIdx (env.pubOk i) ((m :: ms).map (fun x => x.documentId)) = some k) :
    loopAux env B M bid (fuel + 1) i total s
      = ([Event.claim i B, Event.commit i ((m :: ms).map (fun x => x.documentId))]
           ++ ((m :: ms).map (fun x => x.documentId)).map (Event.publish i)
           ++ (((m :: ms).map (fun x => x.documentId)).take k).map (Event.ack i),
         RunOutcome.failure total (i + 1),
         commitUpdates s (update_docs_and_prepare_messages (docs.take B) bid).2
           (env.time i)) := by
  rw [loopAux.eq_def]
  simp only [List.map_cons] at hk
  simp [h, hr, hm, hk]

theorem loopAux_pubOk {env : Env} {B M : Nat} {bid : String} {fuel i total : Nat}
    {s : Store} {docs : List Doc} {m : Msg} {ms : List Msg}
    (h : ¬ M ≤ total) (hr : env.resp i s = some docs)
    (hm : (update_docs_and_prepare_messages (docs.take B) bid).1 = m :: ms)
    (hk : firstFailIdx (env.pubOk i) ((m :: ms).map (fun x => x.documentId)) = none) :
    loopAux env B M bid (fuel + 1) i total s
      = ([Event.claim i B, Event.commit i ((m :: ms).map (fun x => x.documentId))]
           ++ ((m :: ms).map (fun x => x.documentId)).map (Event.publish i)
           ++ ((m :: ms).map (fun x => x.documentId)).map (Event.ack i)
           ++ (loopAux env B M bid fuel (i + 1) (total + (m :: ms).length)
                 (commitUpdates s (update_docs_and_prepare_messages (docs.take B) bid).2
                   (env.time i))).1,
         (loopAux env B M bid fuel (i + 1) (total + (m :: ms).length)
            (commitUpdates s (update_docs_and_prepare_messages (docs.take B) bid).2
              (env.time i))).2.1,
         (loopAux env B M bid fuel (i + 1) (total + (m :: ms).length)
            (commitUpdates s (update_docs_and_prepare_messages (docs.take B) bid).2
              (env.time i))).2.2) := by
  rw [loopAux.eq_def]
  simp only [List.map_cons] at hk
  simp [h, hr, hm, hk]

/-! ## Invariants of the orchestration loop -/

theorem update_docs_len_le (docs : List Doc) (bid : String) :
    (update_docs_and_prepare_messages docs bid).1.length ≤ docs.length := by
  rw [update_docs_msgs]
  simpa using List.length_filter_le _ docs

theorem update_docs_ids (docs : List Doc) (bid : String) :
    ((update_docs_and_prepare_messages docs bid).2).map Prod.fst
      = ((update_docs_and_prepare_messages docs bid).1).map (fun m => m.documentId) := by
  rw [update_docs_msgs, update_docs_upds]
  simp

theorem update_docs_payload (docs : List Doc) (bid : String) :
    ∀ u ∈ (update_docs_and_prepare_messages docs bid).2, u.2 = claimPayload bid := by
  rw [update_docs_upds]
  intro u hu
  rcases List.mem_map.mp hu with ⟨d, _, rfl⟩
  rfl

theorem countP_publish_map (i : Nat) (l : List String) :
    (l.map (Event.publish i)).countP isPublishEvent = l.length := by
  rw [List.countP_map]
  exact List.countP_eq_length.mpr (fun a _ => rfl)

theorem countP_ack_map (i : Nat) (l : List String) :
    (l.map (Event.ack i)).countP isPublishEvent = 0 := by
  rw [List.countP_map]
  exact List.countP_eq_zero.mpr (fun a _ => by simp [Function.comp, isPublishEvent])

theorem firstFailIdx_none_of_all (ok : String → Bool) :
    ∀ ids : List String, (∀ d ∈ ids, ok d = true) → firstFailIdx ok ids = none := by
  intro ids
  induction ids with
  | nil => intro _; rfl
  | cons d rest ih =>
    intro hall
    have hd : ok d = true := hall d (List.mem_cons_self d rest)
    simp [firstFailIdx, hd, ih (fun x hx => hall x (List.mem_cons_of_mem d hx))]

theorem loopAux_not_fuelOut (env : Env) (B M : Nat) (bid : String) :
    ∀ (fuel i total : Nat) (s : Store), M ≤ total + fuel →
      (loopAux env B M bid fuel i total s).2.1.isFuelOut = false := by
  intro fuel
  induction fuel with
  | zero =>
    intro i total s hfuel
    rw [loopAux_stop (by omega)]
    rfl
  | succ fuel ih =>
    intro i total s hfuel
    by_cases h : M ≤ total
    · rw [loopAux_stop h]; rfl
    · cases hr : env.resp i s with
      | none => rw [loopAux_respNone h hr]; rfl
      | some docs =>
        cases hm : (update_docs_and_prepare_messages (docs.take B) bid).1 with
        | nil => rw [loopAux_emptyClaim h hr hm]; rfl
        | cons m ms =>
          cases hk : firstFailIdx (env.pubOk i) ((m :: ms).map (fun x => x.documentId)) with
          | some k => rw [loopAux_pubFail h hr hm hk]; rfl
          | none =>
            rw [loopAux_pubOk h hr hm hk]
            exact ih (i + 1) (total + (m :: ms).length) _ (by simp; omega)

theorem loopAux_iters_le (env : Env) (B M : Nat) (bid : String) :
    ∀ (fuel i total : Nat) (s : Store),
      (loopAux env B M bid fuel i total s).2.1.iters ≤ i + (M - total) := by
  intro fuel
  induction fuel with
  | zero =>
    intro i total s
    by_cases h : M ≤ total
    · rw [loopAux_stop h]; simp [RunOutcome.iters]
    · rw [loopAux_fuelZero h]; simp [RunOutcome.iters]
  | succ fuel ih =>
    intro i total s
    by_cases h : M ≤ total
    · rw [loopAux_stop h]; simp [RunOutcome.iters]
    · cases hr : env.resp i s with
      | none => rw [loopAux_respNone h hr]; simp [RunOutcome.iters]; omega
      | some docs =>
        cases hm : (update_docs_and_prepare_messages (docs.take B) bid).1 with
        | nil => rw [loopAux_emptyClaim h hr hm]; simp [RunOutcome.iters]; omega
        | cons m ms =>
          cases hk : firstFailIdx (env.pubOk i) ((m :: ms).map (fun x => x.documentId)) with
          | some k => rw [loopAux_pubFail h hr hm hk]; simp [RunOutcome.iters]; omega
          | none =>
            rw [loopAux_pubOk h hr hm hk]
            have := ih (i + 1) (total + (m :: ms).length)
              (commitUpdates s (update_docs_and_prepare_messages (docs.take B) bid).2
                (env.time i))
            simp only [List.length_cons] at this ⊢
            omega

theorem loopAux_success_total (env : Env) (B M : Nat) (bid : String) :
    ∀ (fuel i total : Nat) (s : Store) (t j : Nat),
      (loopAux env B M bid fuel i total s).2.1 = RunOutcome.success t j →
      t = total ∨ t < M + B := by
  intro fuel
  induction fuel with
  | zero =>
    intro i total s t j hres
    by_cases h : M ≤ total
    · rw [loopAux_stop h] at hres
      simp only at hres
      cases hres
      exact Or.inl rfl
    · rw [loopAux_fuelZero h] at hres
      simp at hres
  | succ fuel ih =>
    intro i total s t j hres
    by_cases h : M ≤ total
    · rw [loopAux_stop h] at hres
      simp only at hres
      cases hres
      exact Or.inl rfl
    · cases hr : env.resp i s with
      | none => rw [loopAux_respNone h hr] at hres; simp at hres
      | some docs =>
        cases hm : (update_docs_and_prepare_messages (docs.take B) bid).1 with
        | nil =>
          rw [loopAux_emptyClaim h hr hm] at hres
          simp only at hres
          cases hres
          exact Or.inl rfl
        | cons m ms =>
          cases hk : firstFailIdx (env.pubOk i) ((m :: ms).map (fun x => x.documentId)) with
          | some k => rw [loopAux_pubFail h hr hm hk] at hres; simp at hres
          | none =>
            rw [loopAux_pubOk h hr hm hk] at hres
            have hlen : (m :: ms).length ≤ B := by
              rw [← hm]
              calc (update_docs_and_prepare_messages (docs.take B) bid).1.length
                  ≤ (docs.take B).length := update_docs_len_le _ _
                _ ≤ B := List.length_take_le B docs
            rcases ih (i + 1) (total + (m :: ms).length) _ t j hres with h1 | h2
            · right
              simp only [List.length_cons] at h1 hlen
              omega
            · exact Or.inr h2

theorem loopAux_claim_limit (env : Env) (B M : Nat) (bid : String) :
    ∀ (fuel i total : Nat) (s : Store) (j L : Nat),
      Event.claim j L ∈ (loopAux env B M bid fuel i total s).1 → L = B := by
  intro fuel
  induction fuel with
  | zero =>
    intro i total s j L hmem
    by_cases h : M ≤ total
    · rw [loopAux_stop h] at hmem; simp at hmem
    · rw [loopAux_fuelZero h] at hmem; simp at hmem
  | succ fuel ih =>
    intro i total s j L hmem
    by_cases h : M ≤ total
    · rw [loopAux_stop h] at hmem; simp at hmem
    · cases hr : env.resp i s with
      | none =>
        rw [loopAux_respNone h hr] at hmem
        simp at hmem
        exact hmem.2
      | some docs =>
        cases hm : (update_docs_and_prepare_messages (docs.take B) bid).1 with
        | nil =>
          rw [loopAux_emptyClaim h hr hm] at hmem
          simp at hmem
          exact hmem.2
        | cons m ms =>
          cases hk : firstFailIdx (env.pubOk i) ((m :: ms).map (fun x => x.documentId)) with
          | some k =>
            rw [loopAux_pubFail h hr hm hk] at hmem
            simp at hmem
            rcases hmem with ⟨_, hL⟩ | htake
            · exact hL
            · exfalso
              have := List.take_subset _ _ htake
              simp at this
          | none =>
            rw [loopAux_pubOk h hr hm hk] at hmem
            simp at hmem
            rcases hmem with ⟨_, hL⟩ | hrest
            · exact hL
            · exact ih _ _ _ j L hrest

theorem loopAux_commit_size (env : Env) (B M : Nat) (bid : String) :
    ∀ (fuel i total : Nat) (s : Store) (j : Nat) (ids : List String),
      Event.commit j ids ∈ (loopAux env B M bid fuel i total s).1 → ids.length ≤ B := by
  intro fuel
  induction fuel with
  | zero =>
    intro i total s j ids hmem
    by_cases h : M ≤ total
    · rw [loopAux_stop h] at hmem; simp at hmem
    · rw [loopAux_fuelZero h] at hmem; simp at hmem
  | succ fuel ih =>
    intro i total s j ids hmem
    have hsize : ∀ m : Msg, ∀ ms : List Msg,
        (update_docs_and_prepare_messages
            ((env.resp i s).getD [] |>.take B) bid).1 = m :: ms →
        ids = (m :: ms).map (fun x => x.documentId) → ids.length ≤ B := by
      intro m ms hm hids
      subst hids
      have : (m :: ms).length ≤ B := by
        rw [← hm]
        calc (update_docs_and_prepare_messages
                (((env.resp i s).getD []).take B) bid).1.length
            ≤ (((env.resp i s).getD []).take B).length := update_docs_len_le _ _
          _ ≤ B := List.length_take_le B _
      simpa using this
    by_cases h : M ≤ total
    · rw [loopAux_stop h] at hmem; simp at hmem
    · cases hr : env.resp i s with
      | none =>
        rw [loopAux_respNone h hr] at hmem
        simp at hmem
      | some docs =>
        cases hm : (update_docs_and_prepare_messages (docs.take B) bid).1 with
        | nil =>
          rw [loopAux_emptyClaim h hr hm] at hmem
          simp at hmem
          rw [hmem.2]
          simp
        | cons m ms =>
          cases hk : firstFailIdx (env.pubOk i) ((m :: ms).map (fun x => x.documentId)) with
          | some k =>
            rw [loopAux_pubFail h hr hm hk] at hmem
            simp at hmem
            rcases hmem with ⟨_, hids⟩ | htake
            · exact hsize m ms (by simp [hr, hm]) (by simpa using hids)
            · exfalso
              have := List.take_subset _ _ htake
              simp at this
          | none =>
            rw [loopAux_pubOk h hr hm hk] at hmem
            simp at hmem
            rcases hmem with ⟨_, hids⟩ | hrest
            · exact hsize m ms (by simp [hr, hm]) (by simpa using hids)
            · exact ih _ _ _ j ids hrest

/-! ## Commit lemmas -/

theorem commitDoc_cons (u : Update) (rest : List Update) (now : Nat) (d : Doc) :
    commitDoc (u :: rest) now d
      = commitDoc rest now (if u.1 = d.id then applyFields now u.2 d else d) := rfl

theorem commitDoc_preserves_queued (now : Nat) (bid : String) :
    ∀ (upds : List Update) (d : Doc),
      (∀ u ∈ upds, u.2 = claimPayload bid) →
      getField "status" d.fields = some (FieldValue.str "queued") →
      getField "status" (commitDoc upds now d).fields = some (FieldValue.str "queued") := by
  intro upds
  induction upds with
  | nil => intro d _ hq; exact hq
  | cons u rest ih =>
    intro d hall hq
    rw [commitDoc_cons]
    by_cases h : u.1 = d.id
    · rw [if_pos h]
      apply ih _ (fun v hv => hall v (List.mem_cons_of_mem u hv))
      rw [hall u (List.mem_cons_self u rest)]
      exact applyFields_claimPayload_status now bid d
    · rw [if_neg h]
      exact ih d (fun v hv => hall v (List.mem_cons_of_mem u hv)) hq

theorem commitDoc_status_queued (now : Nat) (bid : String) :
    ∀ (upds : List Update) (d : Doc),
      (∀ u ∈ upds, u.2 = claimPayload bid) →
      d.id ∈ upds.map Prod.fst →
      getField "status" (commitDoc upds now d).fields = some (FieldValue.str "queued") := by
  intro upds
  induction upds with
  | nil => intro d _ hmem; simp at hmem
  | cons u rest ih =>
    intro d hall hmem
    rw [commitDoc_cons]
    by_cases h : u.1 = d.id
    · rw [if_pos h]
      apply commitDoc_preserves_queued now bid rest _
        (fun v hv => hall v (List.mem_cons_of_mem u hv))
      rw [hall u (List.mem_cons_self u rest)]
      exact applyFields_claimPayload_status now bid d
    · rw [if_neg h]
      apply ih d (fun v hv => hall v (List.mem_cons_of_mem u hv))
      simp only [List.map_cons, List.mem_cons] at hmem
      rcases hmem with h1 | h2
      · exact absurd h1.symm h
      · exact h2

/-! ## C4, C1, C9 -/

/-- C4 (amended): for every behaviour of the store and of the publisher,
the claim-and-publish loop terminates (fuel `M` never runs out), and it
performs at most `M` claim iterations; the `⌈M/B⌉` bound of the claim
holds only when every non-final claim returns a full batch of `B` items,
which the store is not obliged to do. -/
theorem C4_loop_terminates (env : Env) (B M : Nat) (bid : String) (s : Store) :
    (start_workflow env B M bid s).2.1.isFuelOut = false
  ∧ (start_workflow env B M bid s).2.1.iters ≤ M := by
  constructor
  · simpa [start_workflow] using loopAux_not_fuelOut env B M bid M 0 0 s (by omega)
  · simpa [start_workflow] using loopAux_iters_le env B M bid M 0 0 s

/-- C4 counterexample: with `B = 2`, `M = 2` and a store behaviour that
returns a single eligible document on every claim, the run performs `2`
claim iterations, exceeding `⌈M/B⌉ = 1`. -/
theorem C4_ceil_bound_counterexample :
    (start_workflow oneEachEnv 2 2 "b" []).2.1.iters = 2
  ∧ ¬ ((start_workflow oneEachEnv 2 2 "b" []).2.1.iters ≤ (2 + 2 - 1) / 2) := by
  constructor
  · decide
  · decide

/-- C1 (amended): every claim of the loop is issued with query limit
exactly `B` — the per-batch size, regardless of the remaining headroom
`M - totalProcessed` — and the `processedCount` of a success response is
at most `M + B - 1` (it can exceed `M`, but never by a full batch). -/
theorem C1_claim_limit_cap (env : Env) (B M : Nat) (bid : String) (s : Store)
    (hB : 1 ≤ B) (hM : 1 ≤ M) :
    (∀ j L, Event.claim j L ∈ (start_workflow env B M bid s).1 → L = B)
  ∧ (∀ t j, (start_workflow env B M bid s).2.1 = RunOutcome.success t j →
        t ≤ M + B - 1) := by
  constructor
  · intro j L hmem
    exact loopAux_claim_limit env B M bid M 0 0 s j L
      (by simpa [start_workflow] using hmem)
  · intro t j hres
    rcases loopAux_success_total env B M bid M 0 0 s t j
        (by simpa [start_workflow] using hres) with h1 | h2
    · omega
    · omega

/-- C1 counterexample: `B = 2`, `M = 3`, four eligible documents: the
second claim is issued with limit `2 > min(2, 3 - 2) = 1`, and the run
returns `processedCount = 4 > M = 3`, refuting both halves of the claim. -/
theorem C1_cap_exceeded_counterexample :
    (start_workflow honestEnv 2 3 "b" overshootStore).2.2.2.processedCount = some 4
  ∧ ¬ (4 ≤ 3) := by
  constructor
  · decide
  · decide

/-- Witness for C1 at `B = 2`, `M = 3` and the four-document store. -/
theorem C1_claim_limit_cap_witness :
    ((1 : Nat) ≤ 2
      ∧ (start_workflow honestEnv 2 3 "b" overshootStore).2.1 = RunOutcome.success 4 2)
  ∧ 4 ≤ 3 + 2 - 1 :=
  ⟨⟨by decide, by decide⟩,
   (C1_claim_limit_cap honestEnv 2 3 "b" overshootStore (by decide) (by decide)).2
     4 2 (by decide)⟩

/-- C9: every claim transaction commits at most `B` documents (each loop
iteration adds at most `B` items, having started only while
`totalProcessed < M`), so the `processedCount` of a success response is
at most `M + B - 1`. -/
theorem C9_overshoot_bound (env : Env) (B M : Nat) (bid : String) (s : Store)
    (hB : 1 ≤ B) (hM : 1 ≤ M) :
    (∀ j ids, Event.commit j ids ∈ (start_workflow env B M bid s).1 → ids.length ≤ B)
  ∧ (∀ t j, (start_workflow env B M bid s).2.1 = RunOutcome.success t j →
        (start_workflow env B M bid s).2.2.2.processedCount = some t ∧ t ≤ M + B - 1) := by
  constructor
  · intro j ids hmem
    exact loopAux_commit_size env B M bid M 0 0 s j ids
      (by simpa [start_workflow] using hmem)
  · intro t j hres
    have hres' : (loopAux env B M bid M 0 0 s).2.1 = RunOutcome.success t j := by
      simpa [start_workflow] using hres
    constructor
    · simp [start_workflow, hres', responseOf]
    · rcases loopAux_success_total env B M bid M 0 0 s t j hres' with h1 | h2
      · omega
      · omega

/-- Witness for C9 at `B = 2`, `M = 3` and the four-document store. -/
theorem C9_overshoot_bound_witness :
    (start_workflow honestEnv 2 3 "b" overshootStore).2.2.2.processedCount = some 4
  ∧ 4 ≤ 3 + 2 - 1 :=
  (C9_overshoot_bound honestEnv 2 3 "b" overshootStore (by decide) (by decide)).2
    4 2 (by decide)

/-! ## C8, C3 -/

/-- C8 (amended): when the claimer raises a fatal error mid-run (first
conjunct: the store's claim query raises), or the publisher raises (second
conjunct: some publish in the claimed batch is never acknowledged, so its
`future.result()` raises), the loop stops immediately — the trace gains no
claim beyond the failing iteration — and the endpoint returns the generic
`500` error response, which does not include the partial `totalProcessed`
accumulated so far (the outcome records it internally, but the response's
`processedCount` is absent). -/
theorem C8_fatal_error_stops (env : Env) (B M : Nat) (bid : String)
    (fuel i total : Nat) (s : Store) (h : total < M) :
    (env.resp i s = none →
        (loopAux env B M bid (fuel + 1) i total s).2.1 = RunOutcome.failure total (i + 1)
      ∧ (∀ j L, Event.claim j L ∈ (loopAux env B M bid (fuel + 1) i total s).1 → j = i)
      ∧ responseOf ((loopAux env B M bid (fuel + 1) i total s).2.1) bid
          = { code := 500, status := "error", message := "内部サーバーエラーが発生しました。",
              processedCount := none, batchId := none })
  ∧ (∀ (docs : List Doc) (m : Msg) (ms : List Msg) (k : Nat),
      env.resp i s = some docs →
      (update_docs_and_prepare_messages (docs.take B) bid).1 = m :: ms →
      firstFailIdx (env.pubOk i) ((m :: ms).map (fun x => x.documentId)) = some k →
        (loopAux env B M bid (fuel + 1) i total s).2.1 = RunOutcome.failure total (i + 1)
      ∧ (∀ j L, Event.claim j L ∈ (loopAux env B M bid (fuel + 1) i total s).1 → j = i)
      ∧ responseOf ((loopAux env B M bid (fuel + 1) i total s).2.1) bid
          = { code := 500, status := "error", message := "内部サーバーエラーが発生しました。",
              processedCount := none, batchId := none }) := by
  have h' : ¬ M ≤ total := by omega
  constructor
  · intro hr
    rw [loopAux_respNone h' hr]
    refine ⟨rfl, ?_, rfl⟩
    intro j L hmem
    simp at hmem
    exact hmem.1
  · intro docs m ms k hr hm hk
    rw [loopAux_pubFail h' hr hm hk]
    refine ⟨rfl, ?_, rfl⟩
    intro j L hmem
    simp at hmem
    rcases hmem with ⟨hj, _⟩ | htake
    · exact hj
    · exfalso
      have := List.take_subset _ _ htake
      simp at this

/-- Witness for C8: the claimer-raises leg at a store whose every claim
raises, and the publisher-raises leg at a batch whose second publish is
never acknowledged. -/
theorem C8_fatal_error_stops_witness :
    ((0 : Nat) < 5
      ∧ (loopAux alwaysFailEnv 2 5 "b" (4 + 1) 0 0 twoDocStore).2.1
          = RunOutcome.failure 0 (0 + 1))
  ∧ (loopAux pubFailEnv 3 7 "b" (0 + 1) 0 0 twoDocStore).2.1
      = RunOutcome.failure 0 (0 + 1) :=
  ⟨⟨by decide,
    ((C8_fatal_error_stops alwaysFailEnv 2 5 "b" 4 0 0 twoDocStore (by decide)).1 rfl).1⟩,
   ((C8_fatal_error_stops pubFailEnv 3 7 "b" 0 0 0 twoDocStore (by decide)).2 twoDocStore
      ⟨"d1", "b"⟩ [⟨"d2", "b"⟩] 1 (by decide) (by decide) (by decide)).1⟩

/-- C8 counterexample: first batch succeeds with 2 items, the second
claim raises: the outcome records the partial total `2`, but the
returned error response carries no `processedCount` at all — the partial
total is not returned along with the error. -/
theorem C8_missing_total_counterexample :
    (start_workflow storeFailEnv 5 10 "b" twoDocStore).2.1 = RunOutcome.failure 2 2
  ∧ (start_workflow storeFailEnv 5 10 "b" twoDocStore).2.2.2.processedCount = none
  ∧ ¬ ((start_workflow storeFailEnv 5 10 "b" twoDocStore).2.2.2.processedCount
        = some 2) := by
  refine ⟨by decide, by decide, by decide⟩

/-- C3 (amended): when a publish acknowledgment fails mid-batch, the
exception aborts the run: the outcome is the error path with the batch's
items excluded from the total, the endpoint's response is the generic
`500` error naming no failed item ids (and no `processedCount`), and —
with no rollback — every document claimed by the batch's committed
transaction remains `status = "queued"` in the final store. -/
theorem C3_publish_failure_aborts (env : Env) (B M : Nat) (bid : String)
    (fuel i total : Nat) (s : Store) (docs : List Doc) (m : Msg) (ms : List Msg) (k : Nat)
    (h : total < M) (hr : env.resp i s = some docs)
    (hm : (update_docs_and_prepare_messages (docs.take B) bid).1 = m :: ms)
    (hk : firstFailIdx (env.pubOk i) ((m :: ms).map (fun x => x.documentId)) = some k) :
    (loopAux env B M bid (fuel + 1) i total s).2.1 = RunOutcome.failure total (i + 1)
  ∧ responseOf ((loopAux env B M bid (fuel + 1) i total s).2.1) bid
      = { code := 500, status := "error", message := "内部サーバーエラーが発生しました。",
          processedCount := none, batchId := none }
  ∧ (loopAux env B M bid (fuel + 1) i total s).2.2
      = commitUpdates s (update_docs_and_prepare_messages (docs.take B) bid).2 (env.time i)
  ∧ (∀ d ∈ s, d.id ∈ (m :: ms).map (fun x => x.documentId) →
      getField "status"
          (commitDoc (update_docs_and_prepare_messages (docs.take B) bid).2
            (env.time i) d).fields
        = some (FieldValue.str "queued")
      ∧ commitDoc (update_docs_and_prepare_messages (docs.take B) bid).2 (env.time i) d
          ∈ (loopAux env B M bid (fuel + 1) i total s).2.2) := by
  have h' : ¬ M ≤ total := by omega
  rw [loopAux_pubFail h' hr hm hk]
  refine ⟨rfl, rfl, rfl, ?_⟩
  intro d hd hid
  constructor
  · apply commitDoc_status_queued (env.time i) bid _ d (update_docs_payload _ _)
    rw [update_docs_ids, hm]
    exact hid
  · simp only [commitUpdates]
    exact List.mem_map_of_mem _ hd

/-- Witness for C3 at the two-document store with the publish of `"d2"`
failing. -/
theorem C3_publish_failure_aborts_witness :
    (0 : Nat) < 500
  ∧ (loopAux pubFailEnv 50 500 "b" (0 + 1) 0 0 twoDocStore).2.1
      = RunOutcome.failure 0 (0 + 1) :=
  ⟨by decide,
   (C3_publish_failure_aborts pubFailEnv 50 500 "b" 0 0 0 twoDocStore twoDocStore
      ⟨"d1", "b"⟩ [⟨"d2", "b"⟩] 1 (by decide) (by decide) (by decide) (by decide)).1⟩

/-- C3 counterexample: the publish of 1 of the 2 claimed items fails: the
run aborts with the generic error — the response reports no failed item
ids and its `processedCount` is absent, not the claimed count `2`. -/
theorem C3_no_failure_report_counterexample :
    (start_workflow pubFailEnv 50 500 "b" twoDocStore).2.1 = RunOutcome.failure 0 1
  ∧ (start_workflow pubFailEnv 50 500 "b" twoDocStore).2.2.2.processedCount = none
  ∧ ¬ ((start_workflow pubFailEnv 50 500 "b" twoDocStore).2.2.2.processedCount
        = some 2) := by
  refine ⟨by decide, by decide, by decide⟩

/-! ## C5: exhaustion stop -/

theorem filter_received_after_commit (s : Store) (bid : String) (t : Nat) :
    ((commitUpdates s ((s.filter (fun d => isReceived d)).map
        (fun d => (d.id, claimPayload bid))) t).filter (fun d => isReceived d)) = [] := by
  apply List.filter_eq_nil_iff.mpr
  intro d' hd'
  simp only [commitUpdates, List.mem_map] at hd'
  rcases hd' with ⟨d, hd, rfl⟩
  set upds := (s.filter (fun d => isReceived d)).map (fun d => (d.id, claimPayload bid))
    with hupds
  by_cases hmem : d.id ∈ upds.map Prod.fst
  · have hall : ∀ u ∈ upds, u.2 = claimPayload bid := by
      intro u hu
      rcases List.mem_map.mp hu with ⟨x, _, rfl⟩
      rfl
    have hq := commitDoc_status_queued t bid upds d hall hmem
    simp [isReceived, hq]
  · rw [commitDoc_not_target upds t d hmem]
    intro hrec
    apply hmem
    have hdF : d ∈ s.filter (fun d => isReceived d) := List.mem_filter.mpr ⟨hd, hrec⟩
    rw [hupds]
    simp only [List.map_map, List.mem_map, Function.comp]
    exact ⟨d, hdF, rfl⟩

/-- C5: an empty claim ends the run immediately as a success with the
total accumulated so far and publishes nothing (last conjunct, for every
store behaviour); and against the faithful store with fewer than `B`
eligible documents, the run returns `200` with `processedCount` equal to
the true eligible count, in at most two claim iterations (one claiming
batch, at most one empty claim) and with exactly one publish per
eligible document. -/
theorem C5_exhaustion_stop (s : Store) (bid : String) (B M : Nat)
    (hE : (s.filter (fun d => isReceived d)).length < B) (hM : 1 ≤ M) :
    (start_workflow honestEnv B M bid s).2.2.2.code = 200
  ∧ (start_workflow honestEnv B M bid s).2.2.2.processedCount
      = some ((s.filter (fun d => isReceived d)).length)
  ∧ (start_workflow honestEnv B M bid s).2.1.iters ≤ 2
  ∧ ((start_workflow honestEnv B M bid s).1.countP isPublishEvent)
      = (s.filter (fun d => isReceived d)).length
  ∧ (∀ (env : Env) (B' M' : Nat) (bid' : String) (fuel i total : Nat)
        (s₀ : Store) (docs : List Doc),
      total < M' → env.resp i s₀ = some docs →
      (update_docs_and_prepare_messages (docs.take B') bid').1 = [] →
      (loopAux env B' M' bid' (fuel + 1) i total s₀).2.1
          = RunOutcome.success total (i + 1)
        ∧ ∀ e ∈ (loopAux env B' M' bid' (fuel + 1) i total s₀).1,
            isPublishEvent e = false) := by
  have hgen : ∀ (env : Env) (B' M' : Nat) (bid' : String) (fuel i total : Nat)
      (s₀ : Store) (docs : List Doc),
      total < M' → env.resp i s₀ = some docs →
      (update_docs_and_prepare_messages (docs.take B') bid').1 = [] →
      (loopAux env B' M' bid' (fuel + 1) i total s₀).2.1
          = RunOutcome.success total (i + 1)
        ∧ ∀ e ∈ (loopAux env B' M' bid' (fuel + 1) i total s₀).1,
            isPublishEvent e = false := by
    intro env B' M' bid' fuel i total s₀ docs ht hr he
    have h' : ¬ M' ≤ total := by omega
    rw [loopAux_emptyClaim h' hr he]
    refine ⟨rfl, ?_⟩
    intro e he'
    simp at he'
    rcases he' with rfl | rfl <;> rfl
  set F := s.filter (fun d => isReceived d) with hF
  obtain ⟨mf, rfl⟩ : ∃ mf, M = mf + 1 := ⟨M - 1, by omega⟩
  have htake : F.take B = F := List.take_of_length_le (le_of_lt hE)
  have hfilter_idem : F.filter (fun d => isReceived d) = F := by
    rw [hF, List.filter_filter]
    simp
  have hmsgs : (update_docs_and_prepare_messages (F.take B) bid).1
      = F.map (fun d => ⟨d.id, bid⟩) := by
    rw [htake, update_docs_msgs, hfilter_idem]
  have hupds : (update_docs_and_prepare_messages (F.take B) bid).2
      = F.map (fun d => (d.id, claimPayload bid)) := by
    rw [htake, update_docs_upds, hfilter_idem]
  have h0 : ¬ (mf + 1) ≤ 0 := by omega
  have hr0 : honestEnv.resp 0 s = some F := rfl
  cases hFc : F with
  | nil =>
    have he : (update_docs_and_prepare_messages (F.take B) bid).1 = [] := by
      rw [hmsgs, hFc]
      rfl
    have hrun := @loopAux_emptyClaim honestEnv B (mf + 1) bid mf 0 0 s F h0 hr0 he
    refine ⟨?_, ?_, ?_, ?_, hgen⟩
    · simp [start_workflow, hrun, responseOf]
    · simp [start_workflow, hrun, responseOf, hFc]
    · simp [start_workflow, hrun, RunOutcome.iters]
    · simp [start_workflow, hrun, hFc, isPublishEvent, List.countP_cons]
  | cons dm dms =>
    have hmsgs' : (update_docs_and_prepare_messages (F.take B) bid).1
        = ⟨dm.id, bid⟩ :: dms.map (fun d => (⟨d.id, bid⟩ : Msg)) := by
      rw [hmsgs, hFc]
      rfl
    have hk : firstFailIdx (honestEnv.pubOk 0)
        (((⟨dm.id, bid⟩ : Msg) :: dms.map (fun d => (⟨d.id, bid⟩ : Msg))).map
          (fun x => x.documentId)) = none :=
      firstFailIdx_none_of_all _ _ (fun d _ => rfl)
    have hstep := @loopAux_pubOk honestEnv B (mf + 1) bid mf 0 0 s F
      ⟨dm.id, bid⟩ (dms.map (fun d => (⟨d.id, bid⟩ : Msg))) h0 hr0 hmsgs' hk
    have hlen : ((⟨dm.id, bid⟩ : Msg) :: dms.map (fun d => (⟨d.id, bid⟩ : Msg))).length
        = F.length := by
      simp [hFc]
    have hkey : (commitUpdates s ((update_docs_and_prepare_messages (F.take B) bid).2)
        (honestEnv.time 0)).filter (fun d => isReceived d) = [] := by
      rw [hupds, hF]
      exact filter_received_after_commit s bid (honestEnv.time 0)
    by_cases hcap : (mf + 1) ≤ 0 +
        ((⟨dm.id, bid⟩ : Msg) :: dms.map (fun d => (⟨d.id, bid⟩ : Msg))).length
    · have hstop := @loopAux_stop honestEnv B (mf + 1) bid mf 1
        (0 + ((⟨dm.id, bid⟩ : Msg) :: dms.map (fun d => (⟨d.id, bid⟩ : Msg))).length)
        (commitUpdates s ((update_docs_and_prepare_messages (F.take B) bid).2)
          (honestEnv.time 0)) hcap
      have hlen' : dms.length + 1 = F.length := by
        rw [hFc]
        rfl
      simp only [List.length_cons, List.length_map, Nat.zero_add] at hstop
      rw [hlen'] at hstop
      refine ⟨?_, ?_, ?_, ?_, hgen⟩
      · simp [start_workflow, hstep, hstop, responseOf, hlen']
      · simp [start_workflow, hstep, hstop, responseOf, hlen']
      · simp [start_workflow, hstep, hstop, RunOutcome.iters, hlen']
      · simp [start_workflow, hstep, hstop, isPublishEvent, List.countP_cons,
          List.countP_append, countP_publish_map, countP_ack_map, hlen']
        have hpub : List.countP
            (isPublishEvent ∘ Event.publish 0 ∘ (fun x => x.documentId)
              ∘ fun d => ({ documentId := d.id, batchId := bid } : Msg)) dms
            = dms.length := List.countP_eq_length.mpr (fun a _ => rfl)
        have hack : List.countP
            (isPublishEvent ∘ Event.ack 0 ∘ (fun x => x.documentId)
              ∘ fun d => ({ documentId := d.id, batchId := bid } : Msg)) dms
            = 0 := List.countP_eq_zero.mpr (fun a _ => by simp [Function.comp, isPublishEvent])
        rw [hpub, hack]
        omega
    · have hmf : 1 ≤ mf := by
        simp only [List.length_cons, List.length_map, Nat.zero_add] at hcap
        omega
      obtain ⟨mf', rfl⟩ : ∃ mf', mf = mf' + 1 := ⟨mf - 1, by omega⟩
      have h1 : ¬ (mf' + 1 + 1) ≤ 0 +
          ((⟨dm.id, bid⟩ : Msg) :: dms.map (fun d => (⟨d.id, bid⟩ : Msg))).length := hcap
      have hr1 : honestEnv.resp 1
          (commitUpdates s ((update_docs_and_prepare_messages (F.take B) bid).2)
            (honestEnv.time 0))
          = some ((commitUpdates s ((update_docs_and_prepare_messages (F.take B) bid).2)
            (honestEnv.time 0)).filter (fun d => isReceived d)) := rfl
      have he1 : (update_docs_and_prepare_messages
          (((commitUpdates s ((update_docs_and_prepare_messages (F.take B) bid).2)
            (honestEnv.time 0)).filter (fun d => isReceived d)).take B) bid).1 = [] := by
        rw [hkey, List.take_nil]
        rfl
      have hrest := @loopAux_emptyClaim honestEnv B (mf' + 1 + 1) bid mf' 1
        (0 + ((⟨dm.id, bid⟩ : Msg) :: dms.map (fun d => (⟨d.id, bid⟩ : Msg))).length)
        (commitUpdates s ((update_docs_and_prepare_messages (F.take B) bid).2)
          (honestEnv.time 0))
        ((commitUpdates s ((update_docs_and_prepare_messages (F.take B) bid).2)
          (honestEnv.time 0)).filter (fun d => isReceived d)) h1 hr1 he1
      have hlen' : dms.length + 1 = F.length := by
        rw [hFc]
        rfl
      simp only [List.length_cons, List.length_map, Nat.zero_add] at hrest
      rw [hlen'] at hrest
      refine ⟨?_, ?_, ?_, ?_, hgen⟩
      · simp [start_workflow, hstep, hrest, responseOf, hlen']
      · simp [start_workflow, hstep, hrest, responseOf, hlen']
      · simp [start_workflow, hstep, hrest, RunOutcome.iters, hlen']
      · simp [start_workflow, hstep, hrest, isPublishEvent, List.countP_cons,
          List.countP_append, countP_publish_map, countP_ack_map, hlen']
        have hpub : List.countP
            (isPublishEvent ∘ Event.publish 0 ∘ (fun x => x.documentId)
              ∘ fun d => ({ documentId := d.id, batchId := bid } : Msg)) dms
            = dms.length := List.countP_eq_length.mpr (fun a _ => rfl)
        have hack : List.countP
            (isPublishEvent ∘ Event.ack 0 ∘ (fun x => x.documentId)
              ∘ fun d => ({ documentId := d.id, batchId := bid } : Msg)) dms
            = 0 := List.countP_eq_zero.mpr (fun a _ => by simp [Function.comp, isPublishEvent])
        rw [hpub, hack]
        omega

/-- Witness for C5 at a one-eligible-document store with `B = 2`,
`M = 5`. -/
theorem C5_exhaustion_stop_witness :
    ((oneDocStore.filter (fun d => isReceived d)).length < 2)
  ∧ (start_workflow honestEnv 2 5 "b" oneDocStore).2.2.2.processedCount
      = some ((oneDocStore.filter (fun d => isReceived d)).length) :=
  ⟨by decide, (C5_exhaustion_stop oneDocStore "b" 2 5 (by decide) (by decide)).2.1⟩

/-! ## C6: claim-commit-publish-ack ordering -/

theorem pubCommitInv_publishes (committed : Nat → List String) (j : Nat) :
    ∀ (ids : List String) (tr : List Event),
      (∀ d ∈ ids, d ∈ committed j) → PubCommitInv committed tr →
      PubCommitInv committed (ids.map (Event.publish j) ++ tr) := by
  intro ids
  induction ids with
  | nil =>
    intro tr _ htr
    simpa using htr
  | cons d rest ih =>
    intro tr hall htr
    simp only [List.map_cons, List.cons_append]
    exact ⟨hall d (List.mem_cons_self d rest),
           ih tr (fun x hx => hall x (List.mem_cons_of_mem d hx)) htr⟩

theorem pubCommitInv_acks (committed : Nat → List String) (j : Nat) :
    ∀ (ids : List String) (tr : List Event),
      PubCommitInv committed tr →
      PubCommitInv committed (ids.map (Event.ack j) ++ tr) := by
  intro ids
  induction ids with
  | nil =>
    intro tr htr
    simpa using htr
  | cons d rest ih =>
    intro tr htr
    simp only [List.map_cons, List.cons_append]
    exact ih tr htr

theorem pubCommitInv_acks_nil (committed : Nat → List String) (j : Nat)
    (ids : List String) : PubCommitInv committed (ids.map (Event.ack j)) := by
  have := pubCommitInv_acks committed j ids [] trivial
  simpa using this

theorem loopAux_pubCommitInv (env : Env) (B M : Nat) (bid : String) :
    ∀ (fuel i total : Nat) (s : Store) (committed : Nat → List String),
      PubCommitInv committed (loopAux env B M bid fuel i total s).1 := by
  intro fuel
  induction fuel with
  | zero =>
    intro i total s committed
    by_cases h : M ≤ total
    · rw [loopAux_stop h]; trivial
    · rw [loopAux_fuelZero h]; trivial
  | succ fuel ih =>
    intro i total s committed
    by_cases h : M ≤ total
    · rw [loopAux_stop h]; trivial
    · cases hr : env.resp i s with
      | none => rw [loopAux_respNone h hr]; trivial
      | some docs =>
        cases hm : (update_docs_and_prepare_messages (docs.take B) bid).1 with
        | nil => rw [loopAux_emptyClaim h hr hm]; trivial
        | cons m ms =>
          cases hk : firstFailIdx (env.pubOk i)
              ((m :: ms).map (fun x => x.documentId)) with
          | some k =>
            rw [loopAux_pubFail h hr hm hk]
            simp only [List.cons_append, List.nil_append, List.map_cons, PubCommitInv]
            constructor
            · simp [updateCommitted]
            · have hmem : ∀ d ∈ ms.map (fun x => x.documentId),
                  d ∈ updateCommitted committed i
                      (m.documentId :: ms.map (fun x => x.documentId)) i := by
                intro d hd
                simp only [updateCommitted, if_pos rfl]
                exact List.mem_cons_of_mem _ hd
              have hacks := pubCommitInv_acks_nil
                (updateCommitted committed i
                  (m.documentId :: ms.map (fun x => x.documentId))) i
                ((m.documentId :: ms.map (fun x => x.documentId)).take k)
              simpa [List.append_assoc] using
                pubCommitInv_publishes _ i _ _ hmem hacks
          | none =>
            rw [loopAux_pubOk h hr hm hk]
            simp only [List.cons_append, List.nil_append, List.map_cons, PubCommitInv]
            constructor
            · simp [updateCommitted]
            · have hmem : ∀ d ∈ ms.map (fun x => x.documentId),
                  d ∈ updateCommitted committed i
                      (m.documentId :: ms.map (fun x => x.documentId)) i := by
                intro d hd
                simp only [updateCommitted, if_pos rfl]
                exact List.mem_cons_of_mem _ hd
              have hrec := ih (i + 1) (total + (m :: ms).length)
                (commitUpdates s (update_docs_and_prepare_messages (docs.take B) bid).2
                  (env.time i))
                (updateCommitted committed i
                  (m.documentId :: ms.map (fun x => x.documentId)))
              have hacks := pubCommitInv_acks
                (updateCommitted committed i
                  (m.documentId :: ms.map (fun x => x.documentId))) i
                (m.documentId :: ms.map (fun x => x.documentId)) _ hrec
              simpa [List.append_assoc] using
                pubCommitInv_publishes _ i _ _ hmem hacks

theorem claimAfterAcks_publishes (j : Nat) :
    ∀ (ids : List String) (pending : List (Nat × String)) (tr : List Event),
      ClaimAfterAcks (pending ++ ids.map (fun d => (j, d))) tr →
      ClaimAfterAcks pending (ids.map (Event.publish j) ++ tr) := by
  intro ids
  induction ids with
  | nil =>
    intro pending tr h
    simpa using h
  | cons d rest ih =>
    intro pending tr h
    simp only [List.map_cons, List.cons_append]
    show ClaimAfterAcks (pending ++ [(j, d)]) (rest.map (Event.publish j) ++ tr)
    apply ih
    simpa [List.append_assoc] using h

theorem claimAfterAcks_acks (j : Nat) :
    ∀ (ids : List String) (tr : List Event),
      ClaimAfterAcks [] tr →
      ClaimAfterAcks (ids.map (fun d => (j, d))) (ids.map (Event.ack j) ++ tr) := by
  intro ids
  induction ids with
  | nil =>
    intro tr h
    simpa using h
  | cons d rest ih =>
    intro tr h
    simp only [List.map_cons, List.cons_append]
    show ClaimAfterAcks (((j, d) :: rest.map (fun d => (j, d))).erase (j, d))
      (rest.map (Event.ack j) ++ tr)
    rw [List.erase_cons_head]
    exact ih tr h

theorem claimAfterAcks_acks_only (j : Nat) :
    ∀ (ids : List String) (pending : List (Nat × String)),
      ClaimAfterAcks pending (ids.map (Event.ack j)) := by
  intro ids
  induction ids with
  | nil => intro pending; trivial
  | cons d rest ih =>
    intro pending
    show ClaimAfterAcks (pending.erase (j, d)) (rest.map (Event.ack j))
    exact ih _

theorem loopAux_claimAfterAcks (env : Env) (B M : Nat) (bid : String) :
    ∀ (fuel i total : Nat) (s : Store),
      ClaimAfterAcks [] (loopAux env B M bid fuel i total s).1 := by
  intro fuel
  induction fuel with
  | zero =>
    intro i total s
    by_cases h : M ≤ total
    · rw [loopAux_stop h]; trivial
    · rw [loopAux_fuelZero h]; trivial
  | succ fuel ih =>
    intro i total s
    by_cases h : M ≤ total
    · rw [loopAux_stop h]; trivial
    · cases hr : env.resp i s with
      | none =>
        rw [loopAux_respNone h hr]
        simp only [ClaimAfterAcks]
        exact ⟨trivial, trivial⟩
      | some docs =>
        cases hm : (update_docs_and_prepare_messages (docs.take B) bid).1 with
        | nil =>
          rw [loopAux_emptyClaim h hr hm]
          simp only [ClaimAfterAcks]
          exact ⟨trivial, trivial⟩
        | cons m ms =>
          cases hk : firstFailIdx (env.pubOk i)
              ((m :: ms).map (fun x => x.documentId)) with
          | some k =>
            rw [loopAux_pubFail h hr hm hk]
            simp only [List.cons_append, List.nil_append, List.map_cons, ClaimAfterAcks]
            refine ⟨trivial, ?_⟩
            apply claimAfterAcks_publishes
            exact claimAfterAcks_acks_only i _ _
          | none =>
            rw [loopAux_pubOk h hr hm hk]
            simp only [List.cons_append, List.nil_append, List.map_cons, ClaimAfterAcks]
            refine ⟨trivial, ?_⟩
            simp only [List.append_eq, List.append_assoc]
            apply claimAfterAcks_publishes
            simpa [List.append_assoc] using claimAfterAcks_acks i
              (m.documentId :: ms.map (fun x => x.documentId)) _ (ih _ _ _)

/-- C6: in every run's event trace, a dispatch message for an item is
published only after the claim transaction that queued that item (in the
same iteration) has committed, and a claim is issued only while no
publish is awaiting acknowledgment — batch `N+1`'s claim starts only
after every publish of batch `N` is acknowledged. -/
theorem C6_commit_before_publish (env : Env) (B M : Nat) (bid : String) (s : Store) :
    PubCommitInv (fun _ => []) (start_workflow env B M bid s).1
  ∧ ClaimAfterAcks [] (start_workflow env B M bid s).1 := by
  constructor
  · simpa [start_workflow] using loopAux_pubCommitInv env B M bid M 0 0 s (fun _ => [])
  · simpa [start_workflow] using loopAux_claimAfterAcks env B M bid M 0 0 s

end WorkflowTrigger
